import Mathlib

set_option maxRecDepth 10000

namespace FuturesSpread

/-!
Shallow embedding of the futures spread pipeline: `src/process_futures.py`
(the Spread Builder) and `src/cointegration_analysis.py` (the Stationarity
Tester).  Prices are modelled as rationals, trade dates as the raw `YYYYMMDD`
naturals.  File reads are passed in explicitly; the third-party
`statsmodels.adfuller` numeric core is a parameter, with its documented
constant-input guard modelled explicitly.
-/

/-- One daily observation of a single futures contract leg: the selected
columns `trade_date` and `close` of one input CSV row, after
`df[["trade_date", "close"]]` selection in `process_futures_data`. -/
structure LegRow where
  trade_date : ℕ
  close : ℚ
deriving DecidableEq

/-- One per-leg input series (the contents of `IF00.csv`, ..., after column
selection). -/
abbrev ContractSeries := List LegRow

/-- The renamed close column for leg `i`: `close_{futures_type}{i}`
(src/process_futures.py line 23). -/
def closeColName (futures_type : String) (i : ℕ) : String :=
  "close_" ++ futures_type ++ toString i

/-- The leg pairs enumerated by the source loops
`for i in range(3): for j in range(i+1, 4)` (src/process_futures.py lines
33-34), in loop order. -/
def spreadPairs : List (ℕ × ℕ) :=
  (List.range 3).flatMap (fun i => (List.range' (i + 1) (3 - i)).map (fun j => (i, j)))

/-- The derived column name `price_spread_{futures_type}{i}_{futures_type}{j}`
(src/process_futures.py line 35). -/
def spreadColName (futures_type : String) (i j : ℕ) : String :=
  "price_spread_" ++ futures_type ++ toString i ++ "_" ++ futures_type ++ toString j

/-- Model of `pd.merge(left, right, on="trade_date", how="inner")` as used in
the source's sequential join (src/process_futures.py line 30): every row of
the left table is paired with every matching row of the right series, in
left-major order (pandas preserves the order of the left keys for an inner
merge).  The closes of the already-merged legs travel in the second
component. -/
def mergeInner (left : List (ℕ × List ℚ)) (right : ContractSeries) : List (ℕ × List ℚ) :=
  left.flatMap (fun p =>
    (right.filter (fun r => r.trade_date == p.1)).map (fun r => (p.1, p.2 ++ [r.close])))

/-- A row of the final merged table: the join key, the four leg closes in leg
order, and the derived spread columns in the order the source loop appends
them. -/
structure SpreadRow where
  trade_date : ℕ
  closes : List ℚ
  spreads : List ℚ
deriving DecidableEq

/-- The table returned by `process_futures_data`: its column names in order,
and its rows. -/
structure SpreadTable where
  columns : List String
  rows : List SpreadRow
deriving DecidableEq

/-- Shallow embedding of `process_futures_data` (src/process_futures.py lines
3-41).  The four CSV reads are passed in as the four `ContractSeries`; each
series keeps `trade_date` and its renamed close column; the four series are
inner-joined sequentially on `trade_date`; one spread column per leg pair
`(i, j)`, `i < j`, is appended, computed as `close_i - close_j`; the final
`pd.to_datetime` conversion is a change of date representation only and is
modelled as the identity on the `Nat`-coded dates. -/
def process_futures_data (futures_type : String) (df0 df1 df2 df3 : ContractSeries) :
    SpreadTable :=
  let start := df0.map (fun r => (r.trade_date, [r.close]))
  let merged := [df1, df2, df3].foldl mergeInner start
  { columns :=
      "trade_date" :: (List.range 4).map (closeColName futures_type)
        ++ spreadPairs.map (fun p => spreadColName futures_type p.1 p.2),
    rows := merged.map (fun p =>
      { trade_date := p.1, closes := p.2,
        spreads := spreadPairs.map (fun q => p.2.getD q.1 0 - p.2.getD q.2 0) }) }

/-- Errors raised inside the analysis pipeline: the `FileNotFoundError` raised
by `load_data` (carrying the missing path) and the `ValueError` raised inside
the third-party `adfuller` call. -/
inductive AnalysisError where
  | fileNotFound (path : String)
  | valueError (msg : String)
deriving DecidableEq

/-- Decidable equality of `Except` values, used to evaluate the pipeline on
concrete inputs. -/
instance {ε α : Type} [DecidableEq ε] [DecidableEq α] : DecidableEq (Except ε α) := fun a b =>
  match a, b with
  | .ok x, .ok y => if h : x = y then .isTrue (by rw [h]) else .isFalse (by simp [h])
  | .error x, .error y => if h : x = y then .isTrue (by rw [h]) else .isFalse (by simp [h])
  | .ok _, .error _ => .isFalse (by simp)
  | .error _, .ok _ => .isFalse (by simp)

/-- Fold model of `numpy` array `max` (`none` on an empty array). -/
def listMax : List ℚ → Option ℚ
  | [] => none
  | x :: xs => some (xs.foldl (fun a b => if a ≤ b then b else a) x)

/-- Fold model of `numpy` array `min` (`none` on an empty array). -/
def listMin : List ℚ → Option ℚ
  | [] => none
  | x :: xs => some (xs.foldl (fun a b => if b ≤ a then b else a) x)

/-- The components of a successful `statsmodels` `adfuller` return value that
`perform_adf_test` consumes: `result[0]` (the ADF statistic), `result[1]`
(the p-value) and `result[4]` (the 1%/5%/10% critical values, as the ordered
triple of the values under the keys `1%`, `5%`, `10%`). -/
structure AdfOutcome where
  adf_statistic : ℚ
  p_value : ℚ
  critical_values : ℚ × ℚ × ℚ
deriving DecidableEq

/-- Model of the third-party `statsmodels.tsa.stattools.adfuller` call made at
src/cointegration_analysis.py line 54.  The numeric core (the OLS regression,
the AIC automatic lag search, the p-value interpolation) is abstracted as the
parameter `core`; the library's input guard - `adfuller` raises
`ValueError("Invalid input, x is constant")` when `x.max() == x.min()` - is
modelled explicitly, because the pipeline's error behaviour depends on it.
An empty series is likewise rejected (the library also fails there). -/
def adfuller (core : List ℚ → AdfOutcome) (x : List ℚ) : Except AnalysisError AdfOutcome :=
  if listMax x = listMin x then
    .error (.valueError ("Invalid input, x is constant"))
  else
    .ok (core x)

/-- The source's significance-level literal `0.05`
(src/cointegration_analysis.py line 62), as a reduced rational. -/
def significanceLevel : ℚ := ⟨1, 20, by decide, by decide⟩

/-- The result dictionary built by `perform_adf_test` (lines 57-63). -/
structure ADFResult where
  series_name : String
  adf_statistic : ℚ
  p_value : ℚ
  critical_values : ℚ × ℚ × ℚ
  is_stationary : Bool
deriving DecidableEq

/-- Shallow embedding of `CointegrationAnalyzer.perform_adf_test`
(src/cointegration_analysis.py lines 43-65): drop the missing values, run
`adfuller(series, autolag="AIC")`, and package the result, with
`is_stationary` set to whether the p-value is at most `0.05`.  An exception
escaping `adfuller` propagates - the method has no handler. -/
def perform_adf_test (core : List ℚ → AdfOutcome) (series : List (Option ℚ))
    (series_name : String) : Except AnalysisError ADFResult :=
  match adfuller core (series.filterMap id) with
  | .error e => .error e
  | .ok result => .ok
      { series_name := series_name
        adf_statistic := result.adf_statistic
        p_value := result.p_value
        critical_values := result.critical_values
        is_stationary := decide (result.p_value ≤ significanceLevel) }

/-- Structural model of Python's single-character `str.split`:
accumulates the current fragment in reverse. -/
def splitCharAux (sep : Char) : List Char → List Char → List String
  | [], acc => [String.mk acc.reverse]
  | c :: cs, acc =>
    if c = sep then String.mk acc.reverse :: splitCharAux sep cs []
    else splitCharAux sep cs (c :: acc)

/-- Model of Python `s.split(sep)` for a one-character separator. -/
def splitChar (sep : Char) (s : String) : List String := splitCharAux sep s.data []

/-- Model of Python `str.upper()` (the symbols used here are ASCII). -/
def strUpper (s : String) : String := String.mk (s.data.map Char.toUpper)

/-- Model of Python `str.lower()` (the symbols used here are ASCII). -/
def strLower (s : String) : String := String.mk (s.data.map Char.toLower)

/-- Model of Python `str.startswith`. -/
def strStartsWith (s p : String) : Bool := p.data.isPrefixOf s.data

/-- The per-family spread CSV as loaded by `load_data`: a list of named
columns; a missing observation is `none` (pandas `NaN`).  Non-numeric columns
(such as `trade_date`, which the analysis never tests) are carried with
whatever placeholder values; only names starting with `price_spread` are ever
selected. -/
abbrev DataFrame := List (String × List (Option ℚ))

/-- Shallow embedding of `CointegrationAnalyzer.load_data`
(src/cointegration_analysis.py lines 33-41): the filesystem is passed in as a
partial map from path to contents; a missing file raises `FileNotFoundError`
mentioning the path.  The `pd.to_datetime` conversion of the `trade_date`
column does not affect the spread columns and is modelled as the identity. -/
def load_data (files : String → Option DataFrame) (futures_type : String) :
    Except AnalysisError DataFrame :=
  let file_path := "data/" ++ strLower futures_type ++ "_spread.csv"
  match files file_path with
  | none => .error (.fileNotFound file_path)
  | some df => .ok df

/-- Column selection `df[col]` (the first column with that name). -/
def getCol (df : DataFrame) (col : String) : List (Option ℚ) :=
  match df.find? (fun p => p.1 == col) with
  | some p => p.2
  | none => []

/-- The pair label computed in `analyze_spread_combinations` (lines 76-78):
the last two `_`-separated tokens of the column name, joined by a hyphen. -/
def pairName (col : String) : String :=
  let parts := splitChar '_' col
  let contracts := parts.drop (parts.length - 2)
  contracts.getD 0 ("") ++ "-" ++ contracts.getD 1 ("")

/-- Python `dict` assignment `d[k] = v`: overwrite in place when the key
exists (keeping its position), otherwise append. -/
def dictInsert {α : Type} (m : List (String × α)) (k : String) (v : α) :
    List (String × α) :=
  if m.any (fun p => p.1 == k) then
    m.map (fun p => if p.1 == k then (k, v) else p)
  else
    m ++ [(k, v)]

/-- Per-family result dictionary: pair label to ADF result. -/
abbrev FamilyResults := List (String × ADFResult)

/-- Batch result dictionary: uppercased family symbol to its results. -/
abbrev AllResults := List (String × FamilyResults)

/-- The per-column loop of `analyze_spread_combinations` (lines 75-82): test
each spread column in order, inserting into the results dict; the first error
aborts the whole loop, because the loop body has no handler. -/
def testCols (core : List ℚ → AdfOutcome) (df : DataFrame) :
    List String → FamilyResults → Except AnalysisError FamilyResults
  | [], acc => .ok acc
  | col :: rest, acc =>
    match perform_adf_test core (getCol df col) (pairName col) with
    | .error e => .error e
    | .ok r => testCols core df rest (dictInsert acc (pairName col) r)

/-- Shallow embedding of `CointegrationAnalyzer.analyze_spread_combinations`
(src/cointegration_analysis.py lines 67-84): load the family's file, select
the columns whose name starts with `price_spread`, and test them in order. -/
def analyze_spread_combinations (core : List ℚ → AdfOutcome)
    (files : String → Option DataFrame) (futures_type : String) :
    Except AnalysisError FamilyResults :=
  match load_data files futures_type with
  | .error e => .error e
  | .ok df =>
      testCols core df
        ((df.map Prod.fst).filter (fun c => strStartsWith c ("price_spread"))) []

/-- The batch loop of `analyze_all_futures` (lines 90-97): a family whose
analysis raises is logged and skipped; a successful family's results are
stored under the uppercased symbol. -/
def analyzeFamiliesFrom (core : List ℚ → AdfOutcome)
    (files : String → Option DataFrame) : List String → AllResults → AllResults
  | [], acc => acc
  | ft :: rest, acc =>
    match analyze_spread_combinations core files ft with
    | .ok results => analyzeFamiliesFrom core files rest (dictInsert acc (strUpper ft) results)
    | .error _ => analyzeFamiliesFrom core files rest acc

/-- Shallow embedding of `CointegrationAnalyzer.analyze_all_futures`
(src/cointegration_analysis.py lines 86-100), as a pure function of the
configured family list.  It is total: it never raises. -/
def analyze_all_futures (core : List ℚ → AdfOutcome)
    (files : String → Option DataFrame) (futures_types : List String) : AllResults :=
  analyzeFamiliesFrom core files futures_types []

/-- Round-half-even integer division: the nearest integer to `a / b` (for
`b > 0`), with ties going to the even neighbour - the rounding applied by
Python's fixed-point float formatting. -/
def roundHalfEven (a : ℤ) (b : ℕ) : ℤ :=
  let fl := Int.fdiv a b
  let rem := a - fl * b
  if 2 * rem < (b : ℤ) then fl
  else if (b : ℤ) < 2 * rem then fl + 1
  else if fl % 2 = 0 then fl else fl + 1

/-- Model of the Python fixed format `f"{x:.4f}"` (lines 114-118): the value
rounded to 4 decimal places (half to even) and rendered as an optional sign,
the integer part, a point, and exactly four fractional digits. -/
def formatFixed4 (q : ℚ) : String :=
  let n := roundHalfEven (q.num * 10000) q.den
  let sign := if n < 0 then "-" else ""
  let m := n.natAbs
  sign ++ toString (m / 10000) ++ "." ++
    String.mk [Nat.digitChar (m / 1000 % 10), Nat.digitChar (m / 100 % 10),
      Nat.digitChar (m / 10 % 10), Nat.digitChar (m % 10)]

/-- One row of the summary table (lines 111-120); the field names translate
the Chinese column labels: `variety` 品种, `pair` 合约对, `adf_stat`
ADF统计量, `p_val` p值, `crit1`/`crit5`/`crit10` the 1%/5%/10% 临界值 columns,
`stationary` 是否平稳(5%显著性). -/
structure SummaryRow where
  variety : String
  pair : String
  adf_stat : String
  p_val : String
  crit1 : String
  crit5 : String
  crit10 : String
  stationary : String
deriving DecidableEq

/-- The row list built by `generate_summary_table` (lines 107-122) from a
results mapping. -/
def summaryRows (results : AllResults) : List SummaryRow :=
  results.flatMap (fun fam =>
    fam.2.map (fun pr =>
      { variety := strUpper fam.1
        pair := pr.1
        adf_stat := formatFixed4 pr.2.adf_statistic
        p_val := formatFixed4 pr.2.p_value
        crit1 := formatFixed4 pr.2.critical_values.1
        crit5 := formatFixed4 pr.2.critical_values.2.1
        crit10 := formatFixed4 pr.2.critical_values.2.2
        stationary := if pr.2.is_stationary then "是" else "否" }))

/-- The state of a `CointegrationAnalyzer` object. -/
structure CointegrationAnalyzer where
  futures_types : List String
  results : AllResults
deriving DecidableEq

/-- `CointegrationAnalyzer.__init__` (lines 23-31): the symbols are
lowercased and the results dict starts empty. -/
def CointegrationAnalyzer.init (futures_types : List String) : CointegrationAnalyzer :=
  { futures_types := futures_types.map strLower, results := [] }

/-- `analyze_all_futures` as a method on the object state: returns the
updated object (the `self.results = all_results` assignment) together with
the method's return value. -/
def runAnalyzeAllFutures (core : List ℚ → AdfOutcome)
    (files : String → Option DataFrame) (a : CointegrationAnalyzer) :
    CointegrationAnalyzer × AllResults :=
  let r := analyze_all_futures core files a.futures_types
  ({ a with results := r }, r)

/-- `generate_summary_table` as a method on the object state (lines 102-122):
when the results dict is empty (`if not self.results`), run
`analyze_all_futures` first; then build the summary rows from
`self.results`. -/
def runGenerateSummaryTable (core : List ℚ → AdfOutcome)
    (files : String → Option DataFrame) (a : CointegrationAnalyzer) :
    CointegrationAnalyzer × List SummaryRow :=
  if a.results.isEmpty then
    let a2 := (runAnalyzeAllFutures core files a).1
    (a2, summaryRows a2.results)
  else
    (a, summaryRows a.results)

/-- The close value the inner merge takes from a series at a date: the first
row with that `trade_date`, if any. -/
def findClose (s : ContractSeries) (d : ℕ) : Option ℚ :=
  (s.find? (fun r => r.trade_date == d)).map LegRow.close

/-- The row the three-step sequential join produces from a row of leg 0:
defined exactly when all of legs 1-3 have the date. -/
def joinRow (df1 df2 df3 : ContractSeries) (r : LegRow) : Option (ℕ × List ℚ) :=
  match findClose df1 r.trade_date, findClose df2 r.trade_date, findClose df3 r.trade_date with
  | some c1, some c2, some c3 => some (r.trade_date, [r.close, c1, c2, c3])
  | _, _, _ => none

/-- A string consisting of some prefix, a decimal point and exactly four
decimal digits: the shape of a fixed 4-decimal formatted number. -/
def fourDecimalString (s : String) : Prop :=
  ∃ (t : String) (d1 d2 d3 d4 : Char),
    s = t ++ "." ++ String.mk [d1, d2, d3, d4]
      ∧ d1.isDigit ∧ d2.isDigit ∧ d3.isDigit ∧ d4.isDigit

/-! Concrete inputs used by the witness theorems. -/

/-- A fixed `adfuller` numeric outcome used by the concrete witnesses:
statistic -3, p-value 1/100, critical values -7/2, -29/10, -5/2. -/
def wOutcome : AdfOutcome :=
  { adf_statistic := ⟨-3, 1, by decide, by decide⟩
    p_value := ⟨1, 100, by decide, by decide⟩
    critical_values :=
      (⟨-7, 2, by decide, by decide⟩, ⟨-29, 10, by decide, by decide⟩,
        ⟨-5, 2, by decide, by decide⟩) }

/-- A constant `adfuller` numeric core used by the concrete witnesses. -/
def wCore : List ℚ → AdfOutcome := fun _ => wOutcome

/-- Witness spread file for family `if`: two non-constant spread columns. -/
def dfIF : DataFrame :=
  [(("trade_date"), [none, none]),
   (("price_spread_if0_if1"), [some 1, some 2]),
   (("price_spread_if0_if2"), [some 3, some 5])]

/-- Witness spread file for family `ih`: its single spread column is
constant, so testing it raises. -/
def dfIH : DataFrame :=
  [(("trade_date"), [none, none]),
   (("price_spread_ih0_ih1"), [some 4, some 4])]

/-- Witness filesystem: files for `if` and `ih` exist, everything else (in
particular `data/ic_spread.csv`) is missing. -/
def wFiles : String → Option DataFrame := fun p =>
  if p = "data/if_spread.csv" then some dfIF
  else if p = "data/ih_spread.csv" then some dfIH
  else none

/-- The ADF result the witness pipeline records for pair `if0-if1`. -/
def wRes : ADFResult :=
  { series_name := "if0-if1", adf_statistic := wOutcome.adf_statistic
    p_value := wOutcome.p_value, critical_values := wOutcome.critical_values
    is_stationary := true }

/-- The ADF result the witness pipeline records for pair `if0-if2`. -/
def wRes2 : ADFResult := { wRes with series_name := "if0-if2" }

/-- The family results the witness pipeline computes for `if`. -/
def wIFResults : FamilyResults := [("if0-if1", wRes), ("if0-if2", wRes2)]

/-- The ADF result returned for a direct witness call on series name `0-1`. -/
def wStatRes : ADFResult := { wRes with series_name := "0-1" }

/-- Witness leg series 0: dates 1, 2, 3. -/
def wdf0 : ContractSeries := [⟨1, 10⟩, ⟨2, 11⟩, ⟨3, 12⟩]

/-- Witness leg series 1: dates 2, 3, 4. -/
def wdf1 : ContractSeries := [⟨2, 20⟩, ⟨3, 21⟩, ⟨4, 22⟩]

/-- Witness leg series 2: dates 1, 2, 3. -/
def wdf2 : ContractSeries := [⟨1, 30⟩, ⟨2, 31⟩, ⟨3, 32⟩]

/-- Witness leg series 3: dates 2, 3, 5. -/
def wdf3 : ContractSeries := [⟨2, 40⟩, ⟨3, 41⟩, ⟨5, 42⟩]

/-- The witness spread table: its rows are the dates 2 and 3, common to all
four witness legs. -/
def wTable : SpreadTable := process_futures_data ("if") wdf0 wdf1 wdf2 wdf3

/-- A freshly constructed witness analyzer (empty results). -/
def wAnalyzerEmpty : CointegrationAnalyzer := CointegrationAnalyzer.init ["if", "ih", "ic"]

/-- A witness analyzer whose results dict is already populated. -/
def wAnalyzerFilled : CointegrationAnalyzer :=
  { futures_types := ["if", "ih", "ic"], results := [("IF", wIFResults)] }

/-! Theorems. -/

/-- The source's significance level `0.05` equals the reduced rational used in
the embedding. -/
theorem significanceLevel_eq : significanceLevel = 0.05 := by
  rw [significanceLevel, Rat.mk'_eq_divInt]
  norm_num [Rat.divInt_eq_div]

/-- C3: every result returned by `perform_adf_test` carries
`is_stationary = true` exactly when its p-value is at most 0.05 - the 5%
significance rule of src/cointegration_analysis.py line 62. -/
theorem C3_stationarity_verdict (core : List ℚ → AdfOutcome) (series : List (Option ℚ))
    (name : String) (res : ADFResult)
    (h : perform_adf_test core series name = .ok res) :
    res.is_stationary = true ↔ res.p_value ≤ 0.05 := by
  unfold perform_adf_test adfuller at h
  split at h
  · exact absurd h (by simp)
  · injection h with h
    subst h
    simp only [decide_eq_true_eq, significanceLevel_eq]

/-- Witness for C3: a concrete two-point series, with the fixed witness core,
yields the concrete result `wStatRes`, whose verdict agrees with its
p-value. -/
theorem C3_stationarity_verdict_witness :
    perform_adf_test wCore [some 0, some 1] ("0-1") = .ok wStatRes
      ∧ (wStatRes.is_stationary = true ↔ wStatRes.p_value ≤ 0.05) :=
  ⟨by decide, C3_stationarity_verdict wCore [some 0, some 1] ("0-1") wStatRes (by decide)⟩

/-- C8: `process_futures_data` appends exactly 6 derived spread columns (the
columns after `trade_date` and the four close columns), one per unordered leg
pair `(i, j)` with `0 ≤ i < j ≤ 3`, with no duplicated pair and no omitted
pair. -/
theorem C8_pair_completeness (futures_type : String) (df0 df1 df2 df3 : ContractSeries) :
    ((process_futures_data futures_type df0 df1 df2 df3).columns.drop 5
        = spreadPairs.map (fun p => spreadColName futures_type p.1 p.2))
      ∧ spreadPairs.length = 6
      ∧ spreadPairs.Nodup
      ∧ (∀ p ∈ spreadPairs, p.1 < p.2 ∧ p.2 ≤ 3)
      ∧ (∀ i j : Fin 4, (i : ℕ) < (j : ℕ) → ((i : ℕ), (j : ℕ)) ∈ spreadPairs) :=
  ⟨rfl, by decide, by decide, by decide, by decide⟩

/-- C5 fails on the code at a concrete input: for the family symbol `if`, the
first derived column of `process_futures_data` is named
`price_spread_if0_if1` - not `price_spread_0_1` as the claim's
`price_spread_<i>_<j>` scheme states - and the pair label computed for it by
`analyze_spread_combinations` is `if0-if1`, not `0-1`. -/
theorem C5_counterexample :
    ((process_futures_data ("if") [] [] [] []).columns.drop 5).getD 0 ("")
        = "price_spread_if0_if1"
      ∧ ("price_spread_if0_if1" : String) ≠ "price_spread_0_1"
      ∧ pairName ("price_spread_if0_if1") = "if0-if1"
      ∧ ("if0-if1" : String) ≠ "0-1" := by decide

/-- C5 amended: the derived columns are named
`price_spread_<symbol><i>_<symbol><j>` for leg indices `0 ≤ i < j ≤ 3`, and
the pair label recorded for such a column is the two symbol-qualified leg
tokens joined by a hyphen (for the configured family symbols, e.g.
`if0-if1`). -/
theorem C5_amended_pair_labels (futures_type : String) (df0 df1 df2 df3 : ContractSeries) :
    ((process_futures_data futures_type df0 df1 df2 df3).columns.drop 5
        = spreadPairs.map (fun p => spreadColName futures_type p.1 p.2))
      ∧ (∀ ft ∈ (["if", "ih", "ic", "im"] : List String), ∀ i j : Fin 4,
          pairName (spreadColName ft (i : ℕ) (j : ℕ))
            = ft ++ toString (i : ℕ) ++ "-" ++ (ft ++ toString (j : ℕ))) :=
  ⟨rfl, by decide⟩

/-- C2: in every row of the table built by `process_futures_data`, the k-th
derived spread column, belonging to the leg pair `(i, j)`, equals exactly the
difference of the row's close columns `i` and `j` - exact arithmetic on the
modelled values, with no intermediate rounding. -/
theorem C2_spread_algebra (futures_type : String) (df0 df1 df2 df3 : ContractSeries)
    (row : SpreadRow)
    (hrow : row ∈ (process_futures_data futures_type df0 df1 df2 df3).rows)
    (k i j : ℕ) (hlt : k < spreadPairs.length) (hk : spreadPairs.getD k (0, 0) = (i, j)) :
    row.spreads.getD k 0 = row.closes.getD i 0 - row.closes.getD j 0 := by
  obtain ⟨p, hp, rfl⟩ := List.mem_map.1 hrow
  have hl : k < (spreadPairs.map (fun q => p.2.getD q.1 0 - p.2.getD q.2 0)).length := by
    simpa using hlt
  show (spreadPairs.map (fun q => p.2.getD q.1 0 - p.2.getD q.2 0)).getD k 0 = _
  rw [List.getD_eq_getElem _ _ hl, List.getElem_map]
  have hpk : spreadPairs[k] = (i, j) := by
    rw [← List.getD_eq_getElem spreadPairs (0, 0) hlt]
    exact hk
  rw [hpk]

/-- Witness for C2: the first row of the concrete witness table has its first
spread column equal to the difference of close columns 0 and 1. -/
theorem C2_spread_algebra_witness :
    ∃ h : 0 < wTable.rows.length,
      (wTable.rows.get ⟨0, h⟩).spreads.getD 0 0
        = (wTable.rows.get ⟨0, h⟩).closes.getD 0 0 - (wTable.rows.get ⟨0, h⟩).closes.getD 1 0 := by
  have h : 0 < wTable.rows.length := by decide
  exact ⟨h, C2_spread_algebra ("if") wdf0 wdf1 wdf2 wdf3 _ (List.get_mem _ 0 h)
    0 0 1 (by decide) (by decide)⟩

/-- A fold by a binary pick that fixes `c` keeps `c` over a constant list. -/
theorem foldl_pick_const (c : ℚ) (f : ℚ → ℚ → ℚ) (hf : f c c = c) :
    ∀ xs : List ℚ, (∀ v ∈ xs, v = c) → xs.foldl f c = c := by
  intro xs
  induction xs with
  | nil => intro _; rfl
  | cons x xs ih =>
    intro h
    have hx : x = c := h x (List.mem_cons_self x xs)
    rw [List.foldl_cons, hx, hf]
    exact ih (fun v hv => h v (List.mem_cons_of_mem x hv))

/-- The fold model of `numpy` `max` returns the common value of a nonempty
constant list. -/
theorem listMax_const (l : List ℚ) (c : ℚ) (hne : l ≠ []) (h : ∀ v ∈ l, v = c) :
    listMax l = some c := by
  cases l with
  | nil => exact absurd rfl hne
  | cons x xs =>
    have hx : x = c := h x (List.mem_cons_self x xs)
    subst hx
    simp only [listMax]
    congr 1
    refine foldl_pick_const x _ ?_ xs (fun v hv => h v (List.mem_cons_of_mem x hv))
    show (if x ≤ x then x else x) = x
    exact ite_self x

/-- The fold model of `numpy` `min` returns the common value of a nonempty
constant list. -/
theorem listMin_const (l : List ℚ) (c : ℚ) (hne : l ≠ []) (h : ∀ v ∈ l, v = c) :
    listMin l = some c := by
  cases l with
  | nil => exact absurd rfl hne
  | cons x xs =>
    have hx : x = c := h x (List.mem_cons_self x xs)
    subst hx
    simp only [listMin]
    congr 1
    refine foldl_pick_const x _ ?_ xs (fun v hv => h v (List.mem_cons_of_mem x hv))
    show (if x ≤ x then x else x) = x
    exact ite_self x

/-- C6: a constant-valued (zero-variance) spread series - nonempty after the
NaN drop, every remaining value identical - makes `perform_adf_test` raise
the degenerate-series error (the `ValueError("Invalid input, x is constant")`
of the underlying library, the `DegenerateSeries` of the spec's error
taxonomy) instead of returning any numeric result. -/
theorem C6_degenerate_series (core : List ℚ → AdfOutcome) (series : List (Option ℚ))
    (name : String) (c : ℚ) (hne : series.filterMap id ≠ [])
    (hconst : ∀ v ∈ series.filterMap id, v = c) :
    perform_adf_test core series name
      = .error (.valueError ("Invalid input, x is constant")) := by
  unfold perform_adf_test adfuller
  rw [listMax_const (series.filterMap id) c hne hconst,
    listMin_const (series.filterMap id) c hne hconst, if_pos rfl]

/-- Witness for C6: the concrete constant series 3, NaN, 3 raises the
constant-input error. -/
theorem C6_degenerate_series_witness :
    (([some (3:ℚ), none, some 3].filterMap id ≠ [])
      ∧ (∀ v ∈ [some (3:ℚ), none, some 3].filterMap id, v = 3))
    ∧ perform_adf_test wCore [some 3, none, some 3] ("x")
        = .error (.valueError ("Invalid input, x is constant")) :=
  ⟨⟨by decide, by decide⟩,
    C6_degenerate_series wCore [some 3, none, some 3] ("x") 3 (by decide) (by decide)⟩

/-- C10: calling `generate_summary_table` on an analyzer whose results dict
is empty (in particular a freshly constructed one) first runs the full batch
analysis, so its summary output equals the output of `analyze_all_futures`
followed by `generate_summary_table`; on a non-empty results dict the stored
results are used unchanged. -/
theorem C10_generate_runs_batch (core : List ℚ → AdfOutcome)
    (files : String → Option DataFrame) (a : CointegrationAnalyzer) :
    (a.results = [] →
      (runGenerateSummaryTable core files a).2
        = (runGenerateSummaryTable core files (runAnalyzeAllFutures core files a).1).2)
    ∧ (a.results ≠ [] →
      runGenerateSummaryTable core files a = (a, summaryRows a.results)) := by
  constructor
  · intro hemp
    by_cases hr : (analyze_all_futures core files a.futures_types).isEmpty
    · simp [runGenerateSummaryTable, runAnalyzeAllFutures, hemp, hr]
    · simp [runGenerateSummaryTable, runAnalyzeAllFutures, hemp, hr]
  · intro hne
    have hfalse : a.results.isEmpty = false := by
      cases hcase : a.results with
      | nil => exact absurd hcase hne
      | cons x xs => rfl
    simp [runGenerateSummaryTable, hfalse]

/-- Witness for C10: the fresh witness analyzer takes the batch path and
matches analyze-then-summarize; the pre-filled analyzer's stored results are
used unchanged. -/
theorem C10_generate_runs_batch_witness :
    (wAnalyzerEmpty.results = []
      ∧ (runGenerateSummaryTable wCore wFiles wAnalyzerEmpty).2
          = (runGenerateSummaryTable wCore wFiles
              (runAnalyzeAllFutures wCore wFiles wAnalyzerEmpty).1).2)
    ∧ (wAnalyzerFilled.results ≠ []
      ∧ runGenerateSummaryTable wCore wFiles wAnalyzerFilled
          = (wAnalyzerFilled, summaryRows wAnalyzerFilled.results)) :=
  ⟨⟨rfl, (C10_generate_runs_batch wCore wFiles wAnalyzerEmpty).1 rfl⟩,
   ⟨by decide, (C10_generate_runs_batch wCore wFiles wAnalyzerFilled).2 (by decide)⟩⟩

/-- Inserting a fresh key into a Python-style dict appends the binding. -/
theorem dictInsert_of_not_mem {α : Type} (m : List (String × α)) (k : String) (v : α)
    (h : k ∉ m.map Prod.fst) : dictInsert m k v = m ++ [(k, v)] := by
  unfold dictInsert
  rw [if_neg]
  intro hc
  rw [List.any_eq_true] at hc
  obtain ⟨p, hp, hpk⟩ := hc
  exact h (List.mem_map.2 ⟨p, hp, beq_iff_eq.mp hpk⟩)

/-- Characterization of the batch loop: starting from an accumulator whose
keys avoid the remaining families' uppercased symbols, the loop appends one
binding per family whose analysis succeeds, in family order. -/
theorem analyzeFamiliesFrom_eq (core : List ℚ → AdfOutcome)
    (files : String → Option DataFrame) :
    ∀ (fts : List String) (acc : AllResults),
      (fts.map strUpper).Nodup →
      (∀ ft ∈ fts, strUpper ft ∉ acc.map Prod.fst) →
      analyzeFamiliesFrom core files fts acc
        = acc ++ (fts.filter
            (fun ft => (analyze_spread_combinations core files ft).isOk)).map
            (fun ft => (strUpper ft,
              (analyze_spread_combinations core files ft).toOption.getD [])) := by
  intro fts
  induction fts with
  | nil => intro acc _ _; simp [analyzeFamiliesFrom]
  | cons ft rest ih =>
    intro acc hnd hdisj
    rw [List.map_cons, List.nodup_cons] at hnd
    have hnd2 : (rest.map strUpper).Nodup := hnd.2
    have hftnot : strUpper ft ∉ rest.map strUpper := hnd.1
    cases hcase : analyze_spread_combinations core files ft with
    | ok r =>
      have hins : dictInsert acc (strUpper ft) r = acc ++ [(strUpper ft, r)] :=
        dictInsert_of_not_mem acc (strUpper ft) r
          (hdisj ft (List.mem_cons_self ft rest))
      have hdisj2 : ∀ ft2 ∈ rest,
          strUpper ft2 ∉ (acc ++ [(strUpper ft, r)]).map Prod.fst := by
        intro ft2 hft2
        rw [List.map_append, List.mem_append]
        rintro (hin | hin)
        · exact hdisj ft2 (List.mem_cons_of_mem ft hft2) hin
        · have : strUpper ft2 = strUpper ft := by simpa using hin
          exact hftnot (this ▸ List.mem_map.2 ⟨ft2, hft2, rfl⟩)
      have step : analyzeFamiliesFrom core files (ft :: rest) acc
          = analyzeFamiliesFrom core files rest (dictInsert acc (strUpper ft) r) := by
        simp only [analyzeFamiliesFrom]
        rw [hcase]
      rw [step, hins, ih (acc ++ [(strUpper ft, r)]) hnd2 hdisj2,
        List.filter_cons_of_pos (by rw [hcase]; rfl), List.map_cons, List.append_assoc]
      simp [hcase, Except.toOption]
    | error e =>
      have step : analyzeFamiliesFrom core files (ft :: rest) acc
          = analyzeFamiliesFrom core files rest acc := by
        simp only [analyzeFamiliesFrom]
        rw [hcase]
      rw [step, ih acc hnd2 (fun ft2 hft2 => hdisj ft2 (List.mem_cons_of_mem ft hft2)),
        List.filter_cons_of_neg (by rw [hcase]; exact Bool.false_ne_true)]

/-- The whole batch, from the empty accumulator. -/
theorem analyze_all_futures_eq (core : List ℚ → AdfOutcome)
    (files : String → Option DataFrame) (fts : List String)
    (hnd : (fts.map strUpper).Nodup) :
    analyze_all_futures core files fts
      = (fts.filter (fun ft => (analyze_spread_combinations core files ft).isOk)).map
          (fun ft => (strUpper ft,
            (analyze_spread_combinations core files ft).toOption.getD [])) := by
  unfold analyze_all_futures
  rw [analyzeFamiliesFrom_eq core files fts [] hnd (by intro ft _; simp)]
  rfl

/-- Lookup in a list keyed by uppercased symbols with no duplicate keys finds
the entry of any listed symbol. -/
theorem lookup_keyed_map {α : Type} (f : String → α) :
    ∀ l : List String, ((l.map strUpper).Nodup) →
      ∀ ft ∈ l, List.lookup (strUpper ft) (l.map (fun s => (strUpper s, f s))) = some (f ft) := by
  intro l
  induction l with
  | nil => intro _ ft h; cases h
  | cons s rest ih =>
    intro hnd ft hft
    rw [List.map_cons, List.nodup_cons] at hnd
    by_cases heq : strUpper ft = strUpper s
    · rcases List.mem_cons.1 hft with rfl | hft2
      · simp [List.lookup]
      · exact absurd (heq ▸ List.mem_map.2 ⟨ft, hft2, rfl⟩) hnd.1
    · have hbeq : (strUpper ft == strUpper s) = false := by
        simpa using heq
      rw [List.map_cons, List.lookup_cons, hbeq]
      have hft2 : ft ∈ rest := by
        rcases List.mem_cons.1 hft with rfl | hft2
        · exact absurd rfl heq
        · exact hft2
      exact ih hnd.2 ft hft2

/-- A family whose analysis succeeds keeps its results in the batch output,
under the batch key (its uppercased symbol). -/
theorem analyze_all_futures_lookup_ok (core : List ℚ → AdfOutcome)
    (files : String → Option DataFrame) (fts : List String)
    (hnd : (fts.map strUpper).Nodup) (ft : String) (hft : ft ∈ fts)
    (r : FamilyResults) (hok : analyze_spread_combinations core files ft = .ok r) :
    (analyze_all_futures core files fts).lookup (strUpper ft) = some r := by
  rw [analyze_all_futures_eq core files fts hnd]
  have hmem : ft ∈ fts.filter
      (fun x => (analyze_spread_combinations core files x).isOk) :=
    List.mem_filter.2 ⟨hft, by rw [hok]; rfl⟩
  have hsub : (fts.filter
      (fun x => (analyze_spread_combinations core files x).isOk)).Sublist fts :=
    List.filter_sublist fts
  have hndf : ((fts.filter
      (fun x => (analyze_spread_combinations core files x).isOk)).map strUpper).Nodup :=
    (hsub.map strUpper).nodup hnd
  have := lookup_keyed_map
    (fun s => (analyze_spread_combinations core files s).toOption.getD [])
    (fts.filter (fun x => (analyze_spread_combinations core files x).isOk))
    hndf ft hmem
  rw [this]
  simp [hok, Except.toOption]

/-- A family whose analysis raises is absent from the batch output. -/
theorem analyze_all_futures_absent (core : List ℚ → AdfOutcome)
    (files : String → Option DataFrame) (fts : List String)
    (hnd : (fts.map strUpper).Nodup) (ft : String) (hft : ft ∈ fts)
    (e : AnalysisError) (herr : analyze_spread_combinations core files ft = .error e) :
    strUpper ft ∉ (analyze_all_futures core files fts).map Prod.fst := by
  rw [analyze_all_futures_eq core files fts hnd, List.map_map]
  intro hin
  obtain ⟨ft2, hft2, hup⟩ := List.mem_map.1 hin
  have hft2' : ft2 ∈ fts := List.mem_of_mem_filter hft2
  have : ft2 = ft := List.inj_on_of_nodup_map hnd hft2' hft hup
  subst this
  have := (List.mem_filter.1 hft2).2
  rw [herr] at this
  exact Bool.false_ne_true this

/-- C4: when some configured families' analyses raise and the others
succeed, `analyze_all_futures` (a total function - it never raises) returns
exactly the succeeding families' results: its keys are the uppercased symbols
of exactly the families whose analysis succeeds, each succeeding family's
results are found under its key, and every failing family is absent. -/
theorem C4_aggregation_isolation (core : List ℚ → AdfOutcome)
    (files : String → Option DataFrame) (futures_types : List String)
    (hnodup : (futures_types.map strUpper).Nodup) :
    ((analyze_all_futures core files futures_types).map Prod.fst
        = (futures_types.filter
            (fun ft => (analyze_spread_combinations core files ft).isOk)).map strUpper)
    ∧ (∀ ft ∈ futures_types, ∀ r, analyze_spread_combinations core files ft = .ok r →
        (analyze_all_futures core files futures_types).lookup (strUpper ft) = some r)
    ∧ (∀ ft ∈ futures_types, ∀ e, analyze_spread_combinations core files ft = .error e →
        strUpper ft ∉ (analyze_all_futures core files futures_types).map Prod.fst) := by
  refine ⟨?_, ?_, ?_⟩
  · rw [analyze_all_futures_eq core files futures_types hnodup, List.map_map]
    rfl
  · intro ft hft r hok
    exact analyze_all_futures_lookup_ok core files futures_types hnodup ft hft r hok
  · intro ft hft e herr
    exact analyze_all_futures_absent core files futures_types hnodup ft hft e herr

/-- Witness for C4: with the witness filesystem, `if` succeeds, `ih` fails
inside the ADF test, and `ic` has no file; the batch returns exactly the `if`
results, with `IC` (and `IH`) absent. -/
theorem C4_aggregation_isolation_witness :
    ((["if", "ih", "ic"].map strUpper).Nodup)
    ∧ (analyze_all_futures wCore wFiles ["if", "ih", "ic"]).map Prod.fst = ["IF"]
    ∧ (analyze_all_futures wCore wFiles ["if", "ih", "ic"]).lookup (strUpper ("if"))
        = some wIFResults
    ∧ strUpper ("ic") ∉ (analyze_all_futures wCore wFiles ["if", "ih", "ic"]).map Prod.fst := by
  refine ⟨by decide, ?_, ?_, ?_⟩
  · rw [(C4_aggregation_isolation wCore wFiles ["if", "ih", "ic"] (by decide)).1]
    decide
  · exact (C4_aggregation_isolation wCore wFiles ["if", "ih", "ic"] (by decide)).2.1
      ("if") (by decide) wIFResults (by decide)
  · exact (C4_aggregation_isolation wCore wFiles ["if", "ih", "ic"] (by decide)).2.2
      ("ic") (by decide) (.fileNotFound ("data/ic_spread.csv")) (by decide)

/-- The per-column loop raises as soon as any listed column's test raises. -/
theorem testCols_error (core : List ℚ → AdfOutcome) (df : DataFrame) :
    ∀ (cols : List String) (acc : FamilyResults),
      (∃ col ∈ cols, (perform_adf_test core (getCol df col) (pairName col)).isOk = false) →
      ∃ e2, testCols core df cols acc = .error e2 := by
  intro cols
  induction cols with
  | nil =>
    intro acc h
    obtain ⟨col, hmem, _⟩ := h
    cases hmem
  | cons c rest ih =>
    intro acc h
    obtain ⟨col, hmem, he⟩ := h
    rcases List.mem_cons.1 hmem with rfl | h2
    · cases hc : perform_adf_test core (getCol df col) (pairName col) with
      | error e2 => exact ⟨e2, by simp only [testCols]; rw [hc]⟩
      | ok r =>
        rw [hc] at he
        exact absurd he (by simp [Except.isOk, Except.toBool])
    · cases hc : perform_adf_test core (getCol df c) (pairName c) with
      | error e2 => exact ⟨e2, by simp only [testCols]; rw [hc]⟩
      | ok r =>
        obtain ⟨e2, h3⟩ := ih (dictInsert acc (pairName c) r) ⟨col, h2, he⟩
        exact ⟨e2, by simp only [testCols]; rw [hc]; exact h3⟩

/-- C7: inside one family, a failure while testing any one spread column
aborts the family's entire result set - `analyze_spread_combinations` raises,
so the family (including its already-tested pairs) is absent from the batch
output - while every other family whose analysis succeeds keeps its full
results. -/
theorem C7_pair_failure_aborts_family (core : List ℚ → AdfOutcome)
    (files : String → Option DataFrame) (fts : List String)
    (hnodup : (fts.map strUpper).Nodup) (ft : String) (hft : ft ∈ fts)
    (df : DataFrame) (hload : load_data files ft = .ok df)
    (hbad : ∃ col ∈ (df.map Prod.fst).filter (fun c => strStartsWith c ("price_spread")),
        (perform_adf_test core (getCol df col) (pairName col)).isOk = false) :
    (∃ e2, analyze_spread_combinations core files ft = .error e2)
    ∧ strUpper ft ∉ (analyze_all_futures core files fts).map Prod.fst
    ∧ (∀ ft2 ∈ fts, ∀ r, analyze_spread_combinations core files ft2 = .ok r →
        (analyze_all_futures core files fts).lookup (strUpper ft2) = some r) := by
  have habort : ∃ e2, analyze_spread_combinations core files ft = .error e2 := by
    obtain ⟨e2, h2⟩ := testCols_error core df
      ((df.map Prod.fst).filter (fun c => strStartsWith c ("price_spread"))) [] hbad
    refine ⟨e2, ?_⟩
    unfold analyze_spread_combinations
    rw [hload]
    exact h2
  obtain ⟨e2, h2⟩ := habort
  refine ⟨⟨e2, h2⟩, ?_, ?_⟩
  · exact analyze_all_futures_absent core files fts hnodup ft hft e2 h2
  · intro ft2 hft2 r hok
    exact analyze_all_futures_lookup_ok core files fts hnodup ft2 hft2 r hok

/-- Witness for C7: family `ih` loads but its only spread column is constant,
so its whole result set is absent from the batch, while family `if` keeps its
two results. -/
theorem C7_pair_failure_aborts_family_witness :
    (((["if", "ih"].map strUpper).Nodup)
      ∧ ("ih" ∈ (["if", "ih"] : List String))
      ∧ load_data wFiles ("ih") = .ok dfIH
      ∧ (∃ col ∈ (dfIH.map Prod.fst).filter (fun c => strStartsWith c ("price_spread")),
          (perform_adf_test wCore (getCol dfIH col) (pairName col)).isOk = false))
    ∧ ((∃ e2, analyze_spread_combinations wCore wFiles ("ih") = .error e2)
      ∧ strUpper ("ih") ∉ (analyze_all_futures wCore wFiles ["if", "ih"]).map Prod.fst
      ∧ (∀ ft2 ∈ (["if", "ih"] : List String), ∀ r,
          analyze_spread_combinations wCore wFiles ft2 = .ok r →
          (analyze_all_futures wCore wFiles ["if", "ih"]).lookup (strUpper ft2) = some r)) :=
  ⟨⟨by decide, by decide, by decide, by decide⟩,
    C7_pair_failure_aborts_family wCore wFiles ["if", "ih"] (by decide) ("ih") (by decide)
      dfIH (by decide) (by decide)⟩

/-- A digit character produced from a value reduced mod 10 is a decimal
digit. -/
theorem digitChar_mod_isDigit (x : ℕ) : (Nat.digitChar (x % 10)).isDigit = true := by
  have hall : ∀ k, k < 10 → (Nat.digitChar k).isDigit = true := by decide
  exact hall (x % 10) (Nat.mod_lt x (by decide))

/-- The fixed 4-decimal formatter always produces a string ending in a
decimal point followed by exactly four digits. -/
theorem formatFixed4_shape (q : ℚ) : fourDecimalString (formatFixed4 q) := by
  refine ⟨(if roundHalfEven (q.num * 10000) q.den < 0 then "-" else "")
      ++ toString ((roundHalfEven (q.num * 10000) q.den).natAbs / 10000),
    Nat.digitChar ((roundHalfEven (q.num * 10000) q.den).natAbs / 1000 % 10),
    Nat.digitChar ((roundHalfEven (q.num * 10000) q.den).natAbs / 100 % 10),
    Nat.digitChar ((roundHalfEven (q.num * 10000) q.den).natAbs / 10 % 10),
    Nat.digitChar ((roundHalfEven (q.num * 10000) q.den).natAbs % 10),
    rfl, digitChar_mod_isDigit _, digitChar_mod_isDigit _, digitChar_mod_isDigit _,
    digitChar_mod_isDigit _⟩

/-- Every summary row's family label is among the (uppercased) keys of the
results mapping it was built from. -/
theorem summaryRows_variety_mem (results : AllResults) :
    ∀ row ∈ summaryRows results, row.variety ∈ results.map (fun fam => strUpper fam.1) := by
  intro row hrow
  obtain ⟨fam, hfam, hrow2⟩ := List.mem_flatMap.1 hrow
  obtain ⟨pr, _, rfl⟩ := List.mem_map.1 hrow2
  exact List.mem_map.2 ⟨fam, hfam, rfl⟩

/-- With no duplicate (uppercased) family keys and no duplicate pair keys
inside any family, the summary rows carry pairwise distinct
(family, pair) keys. -/
theorem summaryRows_keys_nodup :
    ∀ results : AllResults,
      ((results.map (fun fam => strUpper fam.1)).Nodup) →
      (∀ fam ∈ results, (fam.2.map Prod.fst).Nodup) →
      ((summaryRows results).map (fun row => (row.variety, row.pair))).Nodup := by
  intro results
  induction results with
  | nil => intro _ _; simp [summaryRows]
  | cons fam rest ih =>
    intro houter hinner
    rw [List.map_cons, List.nodup_cons] at houter
    have hblock : ((fam.2.map (fun pr =>
        ({ variety := strUpper fam.1, pair := pr.1
           adf_stat := formatFixed4 pr.2.adf_statistic
           p_val := formatFixed4 pr.2.p_value
           crit1 := formatFixed4 pr.2.critical_values.1
           crit5 := formatFixed4 pr.2.critical_values.2.1
           crit10 := formatFixed4 pr.2.critical_values.2.2
           stationary := if pr.2.is_stationary then "是" else "否" } : SummaryRow))).map
          (fun row => (row.variety, row.pair))).Nodup := by
      rw [List.map_map]
      have hpairs : (fam.2.map Prod.fst).Nodup :=
        hinner fam (List.mem_cons_self fam rest)
      have : ((fam.2.map Prod.fst).map (fun s => (strUpper fam.1, s))).Nodup :=
        hpairs.map (fun a b hab => ((Prod.mk.injEq _ _ _ _).mp hab).2)
      rw [List.map_map] at this
      exact this
    have hrest : ((summaryRows rest).map (fun row => (row.variety, row.pair))).Nodup :=
      ih houter.2 (fun f hf => hinner f (List.mem_cons_of_mem fam hf))
    rw [summaryRows, List.flatMap_cons, List.map_append]
    refine List.Nodup.append hblock hrest ?_
    intro x hx1 hx2
    obtain ⟨row1, hrow1, rfl⟩ := List.mem_map.1 hx1
    obtain ⟨pr, _, rfl⟩ := List.mem_map.1 hrow1
    obtain ⟨row2, hrow2, hkey⟩ := List.mem_map.1 hx2
    have hv : row2.variety ∈ rest.map (fun f => strUpper f.1) :=
      summaryRows_variety_mem rest row2 hrow2
    have : row2.variety = strUpper fam.1 := congrArg Prod.fst hkey
    exact houter.1 (this ▸ hv)

/-- C9: the summary table built by `generate_summary_table` from a results
mapping with the dict invariants (no duplicate uppercased family keys, no
duplicate pair keys within a family) has pairwise distinct (family, pair)
keys, one row per stored (family, pair); every numeric field is the fixed
4-decimal rendering of the stored statistic (so each carries exactly four
decimal digits), and the verdict is the localized yes/no string 是 / 否. -/
theorem C9_summary_table (results : AllResults)
    (houter : ((results.map (fun fam => strUpper fam.1)).Nodup))
    (hinner : ∀ fam ∈ results, (fam.2.map Prod.fst).Nodup) :
    (((summaryRows results).map (fun row => (row.variety, row.pair))).Nodup)
    ∧ (∀ fam ∈ results, ∀ pr ∈ fam.2, ∃ row ∈ summaryRows results,
        row.variety = strUpper fam.1 ∧ row.pair = pr.1)
    ∧ (∀ row ∈ summaryRows results, ∃ fam ∈ results, ∃ pr ∈ fam.2,
        row.variety = strUpper fam.1 ∧ row.pair = pr.1
        ∧ row.adf_stat = formatFixed4 pr.2.adf_statistic
        ∧ row.p_val = formatFixed4 pr.2.p_value
        ∧ row.crit1 = formatFixed4 pr.2.critical_values.1
        ∧ row.crit5 = formatFixed4 pr.2.critical_values.2.1
        ∧ row.crit10 = formatFixed4 pr.2.critical_values.2.2
        ∧ row.stationary = (if pr.2.is_stationary then "是" else "否"))
    ∧ (∀ row ∈ summaryRows results,
        fourDecimalString row.adf_stat ∧ fourDecimalString row.p_val
        ∧ fourDecimalString row.crit1 ∧ fourDecimalString row.crit5
        ∧ fourDecimalString row.crit10
        ∧ (row.stationary = "是" ∨ row.stationary = "否")) := by
  refine ⟨summaryRows_keys_nodup results houter hinner, ?_, ?_, ?_⟩
  · intro fam hfam pr hpr
    refine ⟨_, List.mem_flatMap.2 ⟨fam, hfam, List.mem_map.2 ⟨pr, hpr, rfl⟩⟩, rfl, rfl⟩
  · intro row hrow
    obtain ⟨fam, hfam, hrow2⟩ := List.mem_flatMap.1 hrow
    obtain ⟨pr, hpr, rfl⟩ := List.mem_map.1 hrow2
    exact ⟨fam, hfam, pr, hpr, rfl, rfl, rfl, rfl, rfl, rfl, rfl, rfl⟩
  · intro row hrow
    obtain ⟨fam, hfam, hrow2⟩ := List.mem_flatMap.1 hrow
    obtain ⟨pr, hpr, rfl⟩ := List.mem_map.1 hrow2
    refine ⟨formatFixed4_shape _, formatFixed4_shape _, formatFixed4_shape _,
      formatFixed4_shape _, formatFixed4_shape _, ?_⟩
    by_cases h : pr.2.is_stationary <;> simp [h]

/-- Witness for C9: the summary built from the witness batch output has
distinct keys. -/
theorem C9_summary_table_witness :
    (([("IF", wIFResults)].map (fun fam => strUpper fam.1)).Nodup
      ∧ ∀ fam ∈ [("IF", wIFResults)], (fam.2.map Prod.fst).Nodup)
    ∧ ((summaryRows [("IF", wIFResults)]).map (fun row => (row.variety, row.pair))).Nodup :=
  ⟨⟨by decide, by decide⟩,
    (C9_summary_table [("IF", wIFResults)] (by decide) (by decide)).1⟩

/-- Under unique dates, filtering a series by a date keeps at most one row:
the one `find?` returns. -/
theorem filter_eq_find_toList (s : ContractSeries)
    (hs : (s.map LegRow.trade_date).Nodup) (d : ℕ) :
    s.filter (fun r => r.trade_date == d) = (s.find? (fun r => r.trade_date == d)).toList := by
  induction s with
  | nil => rfl
  | cons r rs ih =>
    rw [List.map_cons, List.nodup_cons] at hs
    by_cases hr : r.trade_date = d
    · rw [List.filter_cons_of_pos (by simp [hr]), List.find?_cons_of_pos _ (by simp [hr])]
      have hnil : rs.filter (fun x => x.trade_date == d) = [] := by
        rw [List.filter_eq_nil_iff]
        intro x hx hxd
        have hxd2 : x.trade_date = d := by simpa using hxd
        exact hs.1 (List.mem_map.2 ⟨x, hx, by rw [hxd2, hr]⟩)
      rw [hnil]
      rfl
    · rw [List.filter_cons_of_neg (by simp [hr]), List.find?_cons_of_neg _ (by simp [hr])]
      exact ih hs.2

/-- Flattening the option-to-list of an optional image is `filterMap`. -/
theorem flatMap_toList_eq_filterMap {α β : Type} (f : α → Option β) :
    ∀ l : List α, (l.flatMap (fun x => (f x).toList)) = l.filterMap f := by
  intro l
  induction l with
  | nil => rfl
  | cons x xs ih =>
    rw [List.flatMap_cons, List.filterMap_cons]
    cases hfx : f x with
    | none => simpa [hfx] using ih
    | some b => simpa [hfx] using ih

/-- The inner merge against a series with unique dates keeps each left row at
most once, appending the matching close. -/
theorem mergeInner_eq (left : List (ℕ × List ℚ)) (s : ContractSeries)
    (hs : (s.map LegRow.trade_date).Nodup) :
    mergeInner left s
      = left.filterMap (fun p => (findClose s p.1).map (fun c => (p.1, p.2 ++ [c]))) := by
  unfold mergeInner
  rw [← flatMap_toList_eq_filterMap]
  congr 1
  funext p
  rw [filter_eq_find_toList s hs p.1]
  unfold findClose
  cases hf : s.find? (fun r => r.trade_date == p.1) with
  | none => rfl
  | some r => rfl

/-- A close is found at a date exactly when the date occurs in the series. -/
theorem findClose_isSome (s : ContractSeries) (d : ℕ) :
    (findClose s d).isSome = true ↔ d ∈ s.map LegRow.trade_date := by
  unfold findClose
  rw [Option.isSome_map', List.find?_isSome]
  constructor
  · rintro ⟨x, hx, hxd⟩
    exact List.mem_map.2 ⟨x, hx, by simpa using hxd⟩
  · intro hmem
    obtain ⟨x, hx, hxd⟩ := List.mem_map.1 hmem
    exact ⟨x, hx, by simpa using hxd⟩

/-- The row a found close comes from is a source row of the series. -/
theorem findClose_mem (s : ContractSeries) (d : ℕ) (c : ℚ)
    (h : findClose s d = some c) : (⟨d, c⟩ : LegRow) ∈ s := by
  unfold findClose at h
  cases hf : s.find? (fun r => r.trade_date == d) with
  | none => rw [hf] at h; cases h
  | some r =>
    rw [hf] at h
    have hrs : r ∈ s := List.mem_of_find?_eq_some hf
    have hr1 : r.trade_date = d := by simpa using List.find?_some hf
    have hr2 : r.close = c := by simpa using h
    have heq : (⟨d, c⟩ : LegRow) = r := by rw [← hr1, ← hr2]
    rw [heq]
    exact hrs

/-- The three sequential inner merges amount to one pass over leg 0, keeping
the dates every other leg has and collecting the four closes in leg order. -/
theorem merged_eq (df0 df1 df2 df3 : ContractSeries)
    (h1 : (df1.map LegRow.trade_date).Nodup) (h2 : (df2.map LegRow.trade_date).Nodup)
    (h3 : (df3.map LegRow.trade_date).Nodup) :
    [df1, df2, df3].foldl mergeInner (df0.map (fun r => (r.trade_date, [r.close])))
      = df0.filterMap (joinRow df1 df2 df3) := by
  show mergeInner (mergeInner (mergeInner
      (df0.map (fun r => (r.trade_date, [r.close]))) df1) df2) df3 = _
  rw [mergeInner_eq _ df1 h1, List.filterMap_map, mergeInner_eq _ df2 h2,
    List.filterMap_filterMap, mergeInner_eq _ df3 h3, List.filterMap_filterMap]
  congr 1
  funext r
  cases hc1 : findClose df1 r.trade_date with
  | none => simp [joinRow, hc1, Function.comp]
  | some c1 =>
    cases hc2 : findClose df2 r.trade_date with
    | none => simp [joinRow, hc1, hc2, Function.comp]
    | some c2 =>
      cases hc3 : findClose df3 r.trade_date with
      | none => simp [joinRow, hc1, hc2, hc3, Function.comp]
      | some c3 => simp [joinRow, hc1, hc2, hc3, Function.comp]

/-- The length of a `filterMap` counts the elements it keeps. -/
theorem length_filterMap_eq_filter {α β : Type} (f : α → Option β) :
    ∀ l : List α, (l.filterMap f).length = (l.filter (fun x => (f x).isSome)).length := by
  intro l
  induction l with
  | nil => rfl
  | cons x xs ih =>
    rw [List.filterMap_cons, List.filter_cons]
    cases hfx : f x with
    | none => simp [hfx, ih]
    | some b => simp [hfx, ih]

/-- A leg-0 row survives the join exactly when its date occurs in all three
other legs. -/
theorem joinRow_isSome (df1 df2 df3 : ContractSeries) (r : LegRow) :
    (joinRow df1 df2 df3 r).isSome = true
      ↔ (r.trade_date ∈ df1.map LegRow.trade_date
          ∧ r.trade_date ∈ df2.map LegRow.trade_date
          ∧ r.trade_date ∈ df3.map LegRow.trade_date) := by
  rw [← findClose_isSome df1, ← findClose_isSome df2, ← findClose_isSome df3]
  unfold joinRow
  cases findClose df1 r.trade_date <;> cases findClose df2 r.trade_date <;>
    cases findClose df3 r.trade_date <;> simp

/-- Destructuring a successful join row: all three lookups succeeded and the
row collects the four closes in leg order. -/
theorem joinRow_eq_some (df1 df2 df3 : ContractSeries) (r : LegRow) (p : ℕ × List ℚ)
    (h : joinRow df1 df2 df3 r = some p) :
    ∃ c1 c2 c3, findClose df1 r.trade_date = some c1 ∧ findClose df2 r.trade_date = some c2
      ∧ findClose df3 r.trade_date = some c3
      ∧ p = (r.trade_date, [r.close, c1, c2, c3]) := by
  unfold joinRow at h
  cases hc1 : findClose df1 r.trade_date with
  | none => rw [hc1] at h; simp at h
  | some c1 =>
    rw [hc1] at h
    cases hc2 : findClose df2 r.trade_date with
    | none => rw [hc2] at h; simp at h
    | some c2 =>
      rw [hc2] at h
      cases hc3 : findClose df3 r.trade_date with
      | none => rw [hc3] at h; simp at h
      | some c3 =>
        rw [hc3] at h
        refine ⟨c1, c2, c3, rfl, rfl, rfl, ?_⟩
        simpa using h.symm

/-- Building a join row from three successful lookups. -/
theorem joinRow_eq_some_of (df1 df2 df3 : ContractSeries) (r : LegRow) (c1 c2 c3 : ℚ)
    (hc1 : findClose df1 r.trade_date = some c1) (hc2 : findClose df2 r.trade_date = some c2)
    (hc3 : findClose df3 r.trade_date = some c3) :
    joinRow df1 df2 df3 r = some (r.trade_date, [r.close, c1, c2, c3]) := by
  unfold joinRow
  rw [hc1, hc2, hc3]

/-- Counting surviving join rows by the membership predicate on dates. -/
theorem filterMap_joinRow_length (df0 df1 df2 df3 : ContractSeries) :
    (df0.filterMap (joinRow df1 df2 df3)).length
      = (df0.filter (fun r => decide (r.trade_date ∈ df1.map LegRow.trade_date
          ∧ r.trade_date ∈ df2.map LegRow.trade_date
          ∧ r.trade_date ∈ df3.map LegRow.trade_date))).length := by
  rw [length_filterMap_eq_filter]
  congr 1
  apply List.filter_congr
  intro r _
  by_cases hm : (r.trade_date ∈ df1.map LegRow.trade_date
      ∧ r.trade_date ∈ df2.map LegRow.trade_date ∧ r.trade_date ∈ df3.map LegRow.trade_date)
  · rw [(joinRow_isSome df1 df2 df3 r).2 hm, decide_eq_true hm]
  · rw [decide_eq_false hm]
    cases hb : (joinRow df1 df2 df3 r).isSome with
    | false => rfl
    | true => exact absurd ((joinRow_isSome df1 df2 df3 r).1 hb) hm

/-- Filtering rows by a date predicate counts the same as filtering the date
list. -/
theorem filter_dates_length (df0 : ContractSeries) (p : ℕ → Bool) :
    (df0.filter (fun r => p r.trade_date)).length
      = ((df0.map LegRow.trade_date).filter p).length := by
  rw [List.filter_map, List.length_map]
  rfl

/-- The filtered date list of leg 0 counts the four-way intersection of the
date sets, when leg 0's dates are unique. -/
theorem dates_filter_card (df0 df1 df2 df3 : ContractSeries)
    (h0 : (df0.map LegRow.trade_date).Nodup) :
    ((df0.map LegRow.trade_date).filter (fun d =>
        decide (d ∈ df1.map LegRow.trade_date ∧ d ∈ df2.map LegRow.trade_date
          ∧ d ∈ df3.map LegRow.trade_date))).length
      = ((df0.map LegRow.trade_date).toFinset ∩ (df1.map LegRow.trade_date).toFinset
          ∩ (df2.map LegRow.trade_date).toFinset ∩ (df3.map LegRow.trade_date).toFinset).card := by
  rw [← List.toFinset_card_of_nodup (h0.filter _), List.toFinset_filter]
  congr 1
  ext d
  simp only [Finset.mem_filter, Finset.mem_inter, List.mem_toFinset, decide_eq_true_eq]
  tauto

/-- C1: with unique trade dates in all four legs, the table of
`process_futures_data` has exactly one row per date in the intersection of
the four date sets - its row count is the intersection's cardinality, a date
appears among its rows exactly when all four legs have it - and each close
column of a surviving row equals the close of the corresponding leg's source
row for that date. -/
theorem C1_join_correctness (futures_type : String) (df0 df1 df2 df3 : ContractSeries)
    (h0 : (df0.map LegRow.trade_date).Nodup) (h1 : (df1.map LegRow.trade_date).Nodup)
    (h2 : (df2.map LegRow.trade_date).Nodup) (h3 : (df3.map LegRow.trade_date).Nodup) :
    ((process_futures_data futures_type df0 df1 df2 df3).rows.length
        = ((df0.map LegRow.trade_date).toFinset ∩ (df1.map LegRow.trade_date).toFinset
            ∩ (df2.map LegRow.trade_date).toFinset ∩ (df3.map LegRow.trade_date).toFinset).card)
    ∧ (∀ d : ℕ, (∃ row ∈ (process_futures_data futures_type df0 df1 df2 df3).rows,
          row.trade_date = d)
        ↔ (d ∈ df0.map LegRow.trade_date ∧ d ∈ df1.map LegRow.trade_date
            ∧ d ∈ df2.map LegRow.trade_date ∧ d ∈ df3.map LegRow.trade_date))
    ∧ (∀ row ∈ (process_futures_data futures_type df0 df1 df2 df3).rows,
        ∀ i : ℕ, i < 4 → ∀ src ∈ ([df0, df1, df2, df3].getD i []),
          src.trade_date = row.trade_date → row.closes.getD i 0 = src.close) := by
  have hrows : (process_futures_data futures_type df0 df1 df2 df3).rows
      = (df0.filterMap (joinRow df1 df2 df3)).map (fun p =>
          ({ trade_date := p.1, closes := p.2,
             spreads := spreadPairs.map (fun q => p.2.getD q.1 0 - p.2.getD q.2 0) }
            : SpreadRow)) := by
    show ([df1, df2, df3].foldl mergeInner
        (df0.map (fun r => (r.trade_date, [r.close])))).map _ = _
    rw [merged_eq df0 df1 df2 df3 h1 h2 h3]
  refine ⟨?_, ?_, ?_⟩
  · rw [hrows, List.length_map, filterMap_joinRow_length,
      filter_dates_length df0 (fun d => decide (d ∈ df1.map LegRow.trade_date
        ∧ d ∈ df2.map LegRow.trade_date ∧ d ∈ df3.map LegRow.trade_date)),
      dates_filter_card df0 df1 df2 df3 h0]
  · intro d
    constructor
    · rintro ⟨row, hrow, rfl⟩
      rw [hrows] at hrow
      obtain ⟨p, hp, rfl⟩ := List.mem_map.1 hrow
      obtain ⟨r, hr0, hj⟩ := List.mem_filterMap.1 hp
      obtain ⟨c1, c2, c3, hc1, hc2, hc3, rfl⟩ := joinRow_eq_some df1 df2 df3 r p hj
      refine ⟨List.mem_map.2 ⟨r, hr0, rfl⟩, ?_, ?_, ?_⟩
      · exact (findClose_isSome df1 _).1 (by rw [hc1]; rfl)
      · exact (findClose_isSome df2 _).1 (by rw [hc2]; rfl)
      · exact (findClose_isSome df3 _).1 (by rw [hc3]; rfl)
    · rintro ⟨hm0, hm1, hm2, hm3⟩
      obtain ⟨r, hr0, hrd⟩ := List.mem_map.1 hm0
      obtain ⟨c1, hc1⟩ := Option.isSome_iff_exists.1 ((findClose_isSome df1 d).2 hm1)
      obtain ⟨c2, hc2⟩ := Option.isSome_iff_exists.1 ((findClose_isSome df2 d).2 hm2)
      obtain ⟨c3, hc3⟩ := Option.isSome_iff_exists.1 ((findClose_isSome df3 d).2 hm3)
      have hj : joinRow df1 df2 df3 r = some (r.trade_date, [r.close, c1, c2, c3]) :=
        joinRow_eq_some_of df1 df2 df3 r c1 c2 c3 (by rw [hrd]; exact hc1)
          (by rw [hrd]; exact hc2) (by rw [hrd]; exact hc3)
      rw [hrows]
      exact ⟨_, List.mem_map.2 ⟨_, List.mem_filterMap.2 ⟨r, hr0, hj⟩, rfl⟩, hrd⟩
  · intro row hrow i hi src hsrc hdate
    rw [hrows] at hrow
    obtain ⟨p, hp, rfl⟩ := List.mem_map.1 hrow
    obtain ⟨r, hr0, hj⟩ := List.mem_filterMap.1 hp
    obtain ⟨c1, c2, c3, hc1, hc2, hc3, rfl⟩ := joinRow_eq_some df1 df2 df3 r p hj
    interval_cases i
    · have hsr : src = r := List.inj_on_of_nodup_map h0 hsrc hr0 hdate
      rw [hsr]
      rfl
    · have hx : (⟨r.trade_date, c1⟩ : LegRow) ∈ df1 := findClose_mem df1 _ c1 hc1
      have hsr : src = ⟨r.trade_date, c1⟩ := List.inj_on_of_nodup_map h1 hsrc hx hdate
      rw [hsr]
      rfl
    · have hx : (⟨r.trade_date, c2⟩ : LegRow) ∈ df2 := findClose_mem df2 _ c2 hc2
      have hsr : src = ⟨r.trade_date, c2⟩ := List.inj_on_of_nodup_map h2 hsrc hx hdate
      rw [hsr]
      rfl
    · have hx : (⟨r.trade_date, c3⟩ : LegRow) ∈ df3 := findClose_mem df3 _ c3 hc3
      have hsr : src = ⟨r.trade_date, c3⟩ := List.inj_on_of_nodup_map h3 hsrc hx hdate
      rw [hsr]
      rfl

/-- Witness for C1: the concrete witness legs share exactly the dates
2 and 3, and the table indeed has 2 rows. -/
theorem C1_join_correctness_witness :
    ((wdf0.map LegRow.trade_date).Nodup ∧ (wdf1.map LegRow.trade_date).Nodup
      ∧ (wdf2.map LegRow.trade_date).Nodup ∧ (wdf3.map LegRow.trade_date).Nodup)
    ∧ wTable.rows.length
        = ((wdf0.map LegRow.trade_date).toFinset ∩ (wdf1.map LegRow.trade_date).toFinset
            ∩ (wdf2.map LegRow.trade_date).toFinset
            ∩ (wdf3.map LegRow.trade_date).toFinset).card :=
  ⟨⟨by decide, by decide, by decide, by decide⟩,
    (C1_join_correctness ("if") wdf0 wdf1 wdf2 wdf3 (by decide) (by decide) (by decide)
      (by decide)).1⟩

end FuturesSpread
